import Mathlib

/-!
Verification development for the neuralgraph-site repository.

The repository ships a Firebase hosting site with Cloud Function source
(`src/scripts/create-user.sh` holds the user-provisioning shell script and
the Cloud Function TypeScript), a service worker (`src/public/sw.js`), and
the design document `src/TENANT_ENCRYPTION.md` describing the tenant key
lifecycle, payload codec, and pending-action queue.  The codec, key
carrier, queue and job runner are specified in the design document but not
implemented under `src/`; those components are modelled here from the
spec's words, with each such definition marked `Modelled from the spec:`.
The proxy handler, space enforcement and service-worker logic are embedded
directly from the TypeScript / JavaScript source.
-/

namespace NeuralGraph

/-! ## Payload Codec (modelled from the spec) -/

/-- A symmetric key; the spec fixes 256-bit keys, modelled as a natural. -/
abbrev Key := Nat

/-- A plaintext content blob: a byte sequence. -/
abbrev Plaintext := List Nat

/-- Codec-level error taxonomy (spec §7): decryption fails closed. -/
inductive CodecError where
  | DecryptionFailed
deriving DecidableEq, Repr

/-- Modelled from the spec: the versioned encrypted envelope
`{format version, nonce, ciphertext, authentication tag}` (spec §3,
"Encrypted Blob"); the implementation (AES-256-GCM per
TENANT_ENCRYPTION.md "Implementation Order" step 2) is not under `src/`.
The authentication tag of an ideal MAC is modelled as the
(collision-free) triple of key, nonce and ciphertext it authenticates. -/
structure Blob where
  version : Nat
  nonce : Nat
  ciphertext : List Nat
  tag : Nat × Nat × List Nat
deriving DecidableEq, Repr

/-- Modelled from the spec: the keystream pad of the counter-mode cipher,
an arbitrary fixed function of key and nonce (idealised). -/
def keystream (k : Key) (nonce : Nat) : Nat :=
  k + nonce

/-- Modelled from the spec: ideal authentication tag over key, nonce and
ciphertext — collision-free by construction. -/
def macTag (k : Key) (nonce : Nat) (ct : List Nat) : Nat × Nat × List Nat :=
  (k, nonce, ct)

/-- Modelled from the spec: `encrypt(key, plaintext) -> blob` (spec §4.1);
stream-cipher ciphertext with an authentication tag, format version 1. -/
def encrypt (k : Key) (nonce : Nat) (p : Plaintext) : Blob :=
  let ct := p.map fun b => b ^^^ keystream k nonce
  ⟨1, nonce, ct, macTag k nonce ct⟩

/-- Modelled from the spec: `decrypt(key, blob) -> plaintext | error`
(spec §4.1); fails with `DecryptionFailed` whenever the authentication
tag does not verify (wrong key or version mismatch), never returning
partial plaintext. -/
def decrypt (k : Key) (b : Blob) : Except CodecError Plaintext :=
  if b.version = 1 ∧ b.tag = macTag k b.nonce b.ciphertext then
    .ok (b.ciphertext.map fun c => c ^^^ keystream k b.nonce)
  else
    .error .DecryptionFailed

/-- Modelled from the spec: per-key nonce source state; the spec demands a
unique nonce per encryption call, modelled as a counter. -/
structure CodecState where
  counter : Nat
deriving DecidableEq, Repr

/-- Modelled from the spec: an encryption call that draws a fresh nonce
from the counter state, so a nonce is never reused for a given key. -/
def encryptFresh (k : Key) (p : Plaintext) (s : CodecState) :
    Blob × CodecState :=
  (encrypt k s.counter p, ⟨s.counter + 1⟩)

/-! ## Key Carrier (modelled from the spec) -/

/-- Modelled from the spec: the Key Carrier holds the backing key bytes
for one request (spec §4.2). -/
structure KeyCarrier where
  bytes : List Nat
deriving DecidableEq, Repr

/-- Modelled from the spec: clearing overwrites every backing byte with
zero (TENANT_ENCRYPTION.md "Zero the key bytes after use"). -/
def KeyCarrier.clearBytes (kc : KeyCarrier) : KeyCarrier :=
  ⟨List.replicate kc.bytes.length 0⟩

/-- Modelled from the spec: the three ways a request's processing can end
— success, error, or a panic/crash. -/
inductive RequestExit (A E : Type) where
  | success (a : A)
  | failure (e : E)
  | crash (msg : String)

/-- Modelled from the spec: the scoped-acquisition pattern of spec §4.2 —
the carrier is constructed from the caller-supplied key, the request body
runs with the key in scope, and the carrier is cleared unconditionally
when processing ends, on every exit path. -/
def runRequestWithKey {A E : Type} (key : List Nat)
    (body : List Nat → RequestExit A E) :
    RequestExit A E × KeyCarrier :=
  let kc : KeyCarrier := ⟨key⟩
  (body kc.bytes, kc.clearBytes)

/-! ## Pending Action Queue (modelled from the spec) -/

/-- Modelled from the spec: the closed set of content-dependent action
kinds (spec §3 "Pending Action", TENANT_ENCRYPTION.md "Jobs that need
content"). -/
inductive ActionKind where
  | mergeExecution
  | reExtraction
  | anchorRegeneration
deriving DecidableEq, Repr

/-- Modelled from the spec: pending-action lifecycle states
`pending | in-progress | done | failed` (spec §3). -/
inductive ActionStatus where
  | pending
  | inProgress
  | done
  | failed
deriving DecidableEq, Repr

/-- Modelled from the spec: a Pending Action record — tenant identifier,
action kind, target entity identifiers, enqueue timestamp, status and
attempt count (spec §3). -/
structure PendingAction where
  id : Nat
  tenant : String
  kind : ActionKind
  targets : List String
  enqueuedAt : Nat
  status : ActionStatus
  attempts : Nat
deriving DecidableEq, Repr

/-- Modelled from the spec: the durable per-tenant queue of deferred
actions, with a fresh-id counter and the configured maximum attempt
count (spec §4.4). -/
structure Queue where
  actions : List PendingAction
  nextId : Nat
  maxAttempts : Nat
deriving DecidableEq, Repr

/-- An action is claimable by a `claimAll` for tenant `t` when it belongs
to `t` and is pending. -/
def claimable (t : String) (a : PendingAction) : Bool :=
  decide (a.tenant = t ∧ a.status = ActionStatus.pending)

/-- Transition an action to the in-progress state. -/
def setInProgress (a : PendingAction) : PendingAction :=
  { a with status := ActionStatus.inProgress }

/-- Modelled from the spec: `enqueue(tenantId, kind, targetIds)` appends
a fresh pending action with attempt count 0 (spec §4.4). -/
def enqueue (t : String) (k : ActionKind) (targets : List String)
    (now : Nat) (q : Queue) : Queue :=
  { q with
    actions := q.actions ++ [⟨q.nextId, t, k, targets, now,
      ActionStatus.pending, 0⟩]
    nextId := q.nextId + 1 }

/-- Modelled from the spec: `claimAll(tenantId)` atomically transitions
the tenant's pending actions to in-progress and returns them, in enqueue
order, as a finite sequence (spec §4.4). -/
def claimAll (t : String) (q : Queue) : List PendingAction × Queue :=
  ((q.actions.filter (claimable t)).map setInProgress,
   { q with
     actions := q.actions.map fun a =>
       if claimable t a then setInProgress a else a })

/-- Modelled from the spec: `markDone(actionId)` completes an in-progress
action (spec §3 lifecycle: claimed in-progress → done on success). -/
def markDone (i : Nat) (q : Queue) : Queue :=
  { q with
    actions := q.actions.map fun a =>
      if a.id = i ∧ a.status = ActionStatus.inProgress then
        { a with status := ActionStatus.done }
      else a }

/-- Increment the attempt count and return the action to pending. -/
def retryPending (a : PendingAction) : PendingAction :=
  { a with status := ActionStatus.pending, attempts := a.attempts + 1 }

/-- Increment the attempt count and retire the action to the terminal
failed state. -/
def retireFailed (a : PendingAction) : PendingAction :=
  { a with status := ActionStatus.failed, attempts := a.attempts + 1 }

/-- One action's transition under `markFailed`: the attempt count is
incremented; within the configured bound the action returns to pending,
beyond it the action becomes terminally failed (spec §4.4). -/
def markFailedStep (maxA : Nat) (i : Nat) (a : PendingAction) :
    PendingAction :=
  if a.id = i ∧ a.status = ActionStatus.inProgress then
    if a.attempts + 1 > maxA then retireFailed a else retryPending a
  else a

/-- Modelled from the spec: `markFailed(actionId)` increments the attempt
count and returns the action to pending, unless the configured maximum
attempt count is exceeded, in which case the action moves to the terminal
failed state (spec §4.4). -/
def markFailed (i : Nat) (q : Queue) : Queue :=
  { q with actions := q.actions.map (markFailedStep q.maxAttempts i) }

/-- The queue's public operations, for quantifying over operation
sequences. -/
inductive QueueOp where
  | enq (t : String) (k : ActionKind) (targets : List String) (now : Nat)
  | claim (t : String)
  | mdone (i : Nat)
  | mfail (i : Nat)

/-- Apply one queue operation to the state. -/
def applyOp (q : Queue) (op : QueueOp) : Queue :=
  match op with
  | .enq t k tg now => enqueue t k tg now q
  | .claim t => (claimAll t q).2
  | .mdone i => markDone i q
  | .mfail i => markFailed i q

/-- Apply a sequence of queue operations in order. -/
def applyOps (q : Queue) (ops : List QueueOp) : Queue :=
  ops.foldl applyOp q

/-- The tenant's pending actions, oldest first (list order is enqueue
order). -/
def pendingFor (t : String) (q : Queue) : List PendingAction :=
  q.actions.filter (claimable t)

/-- Modelled from the spec: settling one drained action — the runner
executes the claimed action, "then calls `markDone` or `markFailed`"
(spec §4.5).  Success completes the action; failure follows the
`markFailed` policy of spec §4.4: the attempt count is incremented, and
the action returns to pending within the configured bound or retires to
the terminal failed state beyond it. -/
def settleDrained (maxA : Nat) (exec : PendingAction → Bool)
    (a : PendingAction) : PendingAction :=
  if exec a then { a with status := ActionStatus.done }
  else if a.attempts + 1 > maxA then retireFailed a
  else retryPending a

/-- Modelled from the spec: the bounded drain walk — the first `n`
claimable actions of the tenant (the oldest, in enqueue order) are
executed and settled via `settleDrained`, every other action is left
untouched (spec §4.5: "performs a bounded subset (e.g., oldest N pending
actions) and leaves the rest queued"). -/
def drainActions (maxA : Nat) (exec : PendingAction → Bool) (t : String) :
    Nat → List PendingAction → List PendingAction
  | _, [] => []
  | 0, l => l
  | n + 1, a :: rest =>
    if claimable t a then
      settleDrained maxA exec a :: drainActions maxA exec t n rest
    else
      a :: drainActions maxA exec t (n + 1) rest

/-- Modelled from the spec: the Opportunistic Job Runner's drain step
with a count budget: it processes at most `budget` of the tenant's oldest
pending actions — settling each with the queue's configured attempt
bound — and leaves the remainder queued (spec §4.5). -/
def drainBounded (budget : Nat) (t : String) (exec : PendingAction → Bool)
    (q : Queue) : List PendingAction × Queue :=
  ((pendingFor t q).take budget,
   { q with actions := drainActions q.maxAttempts exec t budget q.actions })

/-! ## String helpers for the TypeScript embedding -/

/-- Boolean substring containment over character lists, the semantics of
JS `haystack.includes(needle)`. -/
def containsSub (needle : List Char) : List Char → Bool
  | [] => needle.isEmpty
  | c :: rest => needle.isPrefixOf (c :: rest) || containsSub needle rest

/-- JS `s.includes(needle)` on strings. -/
def strHas (needle s : String) : Bool :=
  containsSub needle.data s.data

/-- JS `s.startsWith(pre)` on strings. -/
def strStarts (pre s : String) : Bool :=
  pre.data.isPrefixOf s.data

/-! ## JSON bodies and `enforceSpaceIds` (create-user.sh lines 535-552) -/

/-- A JSON value as the handler sees a parsed request-body field;
`null` also stands for an absent field. -/
inductive JValue where
  | null
  | str (s : String)
  | num (n : Int)
  | boolean (b : Bool)
  | arr (elems : List JValue)

/-- The two body fields `enforceSpaceIds` inspects; every other field of
the JSON object is irrelevant to the handler. -/
structure ProxyBody where
  space_ids : JValue
  space_id : JValue

/-- `allowedSpaceIds.includes(id)` for an arbitrary JSON array element:
under JS strict equality only a string equal to one of the allowed ids
matches. -/
def isAllowedElem (allowed : List String) : JValue → Bool
  | .str s => allowed.contains s
  | _ => false

mutual

/-- JS template stringification of a JSON value, used only inside the
interpolated error messages. -/
def jvalueText : JValue → String
  | .null => "null"
  | .str s => s
  | .num n => toString n
  | .boolean b => cond b "true" "false"
  | .arr l => jvalueTextArr l

/-- JS array stringification: elements joined by a comma. -/
def jvalueTextArr : List JValue → String
  | [] => ""
  | [v] => jvalueText v
  | v :: rest => jvalueText v ++ "," ++ jvalueTextArr rest

end

/-- The `Array.isArray(body.space_ids)` branch of `enforceSpaceIds`:
when the field is an array, every element must be an allowed id. -/
def arrayCheckOf (ids : JValue) (allowed : List String) :
    Except String Unit :=
  match ids with
  | .arr l =>
    let disallowed := l.filter fun v => !(isAllowedElem allowed v)
    if disallowed.isEmpty then .ok ()
    else
      .error ("Access denied to space(s): " ++
        String.intercalate ", " (disallowed.map jvalueText))
  | _ => .ok ()

/-- The `typeof body.space_id === "string"` branch of `enforceSpaceIds`:
when the field is a string, it must be an allowed id. -/
def stringCheckOf (sid : JValue) (allowed : List String) :
    Except String Unit :=
  match sid with
  | .str s =>
    if allowed.contains s then .ok ()
    else .error ("Access denied to space: " ++ s)
  | _ => .ok ()

/-- Embeds `enforceSpaceIds(body, allowedSpaceIds)` from the Cloud
Function source: the array check on `body.space_ids` throws first, then
the string check on `body.space_id`; all other field shapes pass
unchecked. -/
def enforceSpaceIds (body : ProxyBody) (allowed : List String) :
    Except String Unit :=
  match arrayCheckOf body.space_ids allowed with
  | .error e => .error e
  | .ok _ => stringCheckOf body.space_id allowed

/-! ## Auth and the proxy handler (create-user.sh lines 506-695) -/

/-- The decoded Firebase token as the handler sees it: the three custom
claims, each possibly absent. -/
structure DecodedToken where
  ngTenant : Option String
  ngUserId : Option String
  ngSpaceIds : Option (List String)

/-- JS falsiness of a possibly-absent string claim: absent or empty. -/
def falsyStr : Option String → Bool
  | none => true
  | some s => s.isEmpty

/-- JS falsiness of a possibly-absent array claim: arrays are always
truthy, so only absence is falsy. -/
def falsyArr : Option (List String) → Bool
  | none => true
  | some _ => false

/-- The sandbox claims returned by `verifyAuth`. -/
structure UserClaims where
  ngTenant : String
  ngUserId : String
  ngSpaceIds : List String

/-- The handler's view of an inbound request: HTTP method, the
`Authorization` header, the outcome of the external
`getAuth().verifyIdToken` call (`Except.error` means the identity
collaborator rejected the token, carrying its error message), the
dedicated `X-Encryption-Key` transport field of the tenant key
(TENANT_ENCRYPTION.md "Request Flow"; the proxy never reads it), and the
parsed JSON body (`none` when the body is not an object). -/
structure ProxyRequest where
  method : String
  authorization : Option String
  tokenResult : Except String DecodedToken
  encryptionKey : Option String
  body : Option ProxyBody

/-- Embeds `verifyAuth`: requires a `Bearer` authorization header, defers
to the external token verifier, then requires all three sandbox claims to
be present (truthy). -/
def verifyAuth (req : ProxyRequest) : Except String UserClaims :=
  match req.authorization with
  | none => .error "Missing or invalid Authorization header"
  | some h =>
    if strStarts "Bearer " h then
      match req.tokenResult with
      | .error e => .error e
      | .ok tok =>
        if falsyStr tok.ngTenant || falsyStr tok.ngUserId ||
            falsyArr tok.ngSpaceIds then
          .error "Missing sandbox claims — contact admin for access"
        else
          .ok ⟨tok.ngTenant.getD "", tok.ngUserId.getD "",
            tok.ngSpaceIds.getD []⟩
    else .error "Missing or invalid Authorization header"

/-- A `[^/]+` regex segment: nonempty (URL path segments never contain a
slash, so only nonemptiness is checked). -/
def segOk (s : String) : Bool :=
  !s.isEmpty

/-- Embeds `isPathAllowed` over `ALLOWED_PATHS` (create-user.sh lines
466-487, 529-533).  A path is modelled as its list of slash-separated
segments — the string `/v1/spaces/abc` is `["v1", "spaces", "abc"]` —
and each anchored regex becomes a pattern on that list. -/
def isPathAllowed (method : String) (p : List String) : Bool :=
  match method, p with
  | "GET", ["v1", "health"] => true
  | "POST", ["v1", "spaces"] => true
  | "GET", ["v1", "spaces", s] => segOk s
  | "POST", ["v1", "spaces", s, "ingest"] => segOk s
  | "POST", ["v1", "hydrate"] => true
  | "POST", ["v1", "feedback"] => true
  | "GET", ["v1", "jobs"] => true
  | "GET", ["v1", "jobs", s] => segOk s
  | "GET", ["v1", "profiles", s] => segOk s
  | "PUT", ["v1", "profiles", s, "user"] => segOk s
  | "PUT", ["v1", "profiles", s, "ai"] => segOk s
  | "GET", ["v1", "profiles", u, "ai", "spaces", s] => segOk u && segOk s
  | "PUT", ["v1", "profiles", u, "ai", "spaces", s] => segOk u && segOk s
  | _, _ => false

/-- Embeds `extractSpaceIdFromPath`: the regex anchored at the start of
the path captures the third segment when it is nonempty and a further
slash follows it. -/
def extractSpaceIdFromPath (p : List String) : Option String :=
  match p with
  | "v1" :: "spaces" :: s :: _ :: _ => if s.isEmpty then none else some s
  | _ => none

/-- Embeds the catch-block status mapping of `handleProxy`: messages
mentioning denial map to 403, missing/invalid to 401, anything else to
500. -/
def statusOf (m : String) : Nat :=
  if strHas "Access denied" m || strHas "not allowed" m then 403
  else if strHas "Missing" m || strHas "invalid" m then 401
  else 500

/-- The headers `handleProxy` sends upstream: the server API key, the
content type, and the caller's user and tenant ids from the verified
claims. -/
def proxyHeaders (apiKey : String) (claims : UserClaims) :
    List (String × String) :=
  [("X-API-Key", apiKey), ("Content-Type", "application/json"),
   ("X-User-ID", claims.ngUserId), ("X-Tenant-ID", claims.ngTenant)]

/-- A non-object body is replaced by the empty object. -/
def effectiveBody (req : ProxyRequest) : ProxyBody :=
  req.body.getD ⟨JValue.null, JValue.null⟩

/-- The observable outcome of `handleProxy`: either a local response with
an HTTP status and error message (the upstream is never contacted), or a
request actually forwarded to the upstream NeuralGraph API. -/
inductive ProxyResult where
  | denied (status : Nat) (errMsg : String)
  | forwarded (method : String) (path : List String)
      (headers : List (String × String)) (bodySent : Option ProxyBody)

/-- The tail of `handleProxy` after the path gates: body-level space
enforcement, then the upstream fetch with the fixed header set; a body is
attached unless the method is GET or HEAD. -/
def handleProxyBody (apiKey : String) (req : ProxyRequest)
    (path : List String) (claims : UserClaims) : ProxyResult :=
  match enforceSpaceIds (effectiveBody req) claims.ngSpaceIds with
  | .error m => .denied (statusOf m) m
  | .ok _ =>
    .forwarded req.method path (proxyHeaders apiKey claims)
      (if req.method = "GET" || req.method = "HEAD" then none
       else some (effectiveBody req))

/-- Embeds `handleProxy` (second Cloud Function copy, create-user.sh
lines 621-695): verify auth, check the path whitelist, check the space id
embedded in the path against the caller's claims, enforce body space ids,
then forward upstream; every thrown error is caught and mapped to a
status via `statusOf`. -/
def handleProxy (apiKey : String) (req : ProxyRequest)
    (path : List String) : ProxyResult :=
  match verifyAuth req with
  | .error m => .denied (statusOf m) m
  | .ok claims =>
    if !(isPathAllowed req.method path) then
      .denied 403 "Endpoint not allowed"
    else
      match extractSpaceIdFromPath path with
      | some sid =>
        if !(claims.ngSpaceIds.contains sid) then
          .denied 403 ("Access denied to space: " ++ sid)
        else handleProxyBody apiKey req path claims
      | none => handleProxyBody apiKey req path claims

/-- Core error taxonomy entry for a missing key field (spec §7). -/
inductive CoreError where
  | KeyMissing
deriving DecidableEq, Repr

/-- The dedicated, single-purpose transport field of the tenant key. -/
def keyHeaderName : String :=
  "X-Encryption-Key"

/-- Modelled from the spec: obtaining the tenant key from the dedicated
`X-Encryption-Key` field at the start of an operation that needs it; the
key-consuming operations themselves are not under `src/`.  A request that
lacks the field fails with `KeyMissing` (spec §7). -/
def requireKey (k : Option String) : Except CoreError String :=
  match k with
  | none => .error CoreError.KeyMissing
  | some v => .ok v

/-! ## Service worker fetch listener (sw.js lines 27-50) -/

/-- The parts of a fetch event the listener inspects. -/
structure FetchEvent where
  urlPathname : String
  urlHostname : String
  destination : String
  requestUrl : String

/-- The service-worker cache: stored (request url, response) pairs. -/
abbrev SWCache := List (String × String)

/-- The outcome of a network `fetch` for the event's request. -/
inductive NetFetch where
  | ok (resp : String)
  | failed

/-- How the listener answers the event: not intercepted (the browser
proceeds normally), answered from the network, answered from the cache,
or intercepted with nothing to serve. -/
inductive SWResponse where
  | passthrough
  | fromNetwork (resp : String)
  | fromCache (resp : String)
  | errored

/-- `caches.match(event.request)` over the modelled cache. -/
def cacheLookup (cache : SWCache) (url : String) : Option String :=
  (cache.find? fun e => e.1 == url).map Prod.snd

/-- Embeds the `fetch` listener of sw.js: API and googleapis traffic is
not intercepted at all; otherwise documents are network-first (storing
the fresh response in the cache) with cache fallback, and other requests
are cache-first with network fallback. -/
def swFetch (ev : FetchEvent) (cache : SWCache) (net : NetFetch) :
    SWResponse × SWCache :=
  if strStarts "/api" ev.urlPathname || strHas "googleapis" ev.urlHostname
  then
    (.passthrough, cache)
  else
    let cached := cacheLookup cache ev.requestUrl
    if ev.destination = "document" then
      match net with
      | .ok resp => (.fromNetwork resp, (ev.requestUrl, resp) :: cache)
      | .failed =>
        match cached with
        | some c => (.fromCache c, cache)
        | none => (.errored, cache)
    else
      match cached with
      | some c => (.fromCache c, cache)
      | none =>
        match net with
        | .ok resp => (.fromNetwork resp, cache)
        | .failed => (.errored, cache)

/-! ## Codec theorems -/

theorem xor_pad_cancel (b s : Nat) : b ^^^ s ^^^ s = b := by
  simp [Nat.xor_assoc]

theorem map_xor_pad_cancel (s : Nat) (p : List Nat) :
    ((p.map fun b => b ^^^ s).map fun c => c ^^^ s) = p := by
  simp [List.map_map, Function.comp_def, xor_pad_cancel]

/-- C1: Payload Codec round-trip law: for every key k1, nonce and
plaintext p, `decrypt k1 (encrypt k1 n p) = ok p`; and for every key
k2 ≠ k1, `decrypt k2 (encrypt k1 n p)` fails with `DecryptionFailed`
(never partial plaintext). -/
theorem payload_codec_round_trip (k1 k2 : Key) (n : Nat) (p : Plaintext)
    (hne : k2 ≠ k1) :
    decrypt k1 (encrypt k1 n p) = .ok p ∧
    decrypt k2 (encrypt k1 n p) = .error .DecryptionFailed := by
  have hk : k1 ≠ k2 := fun h => hne h.symm
  constructor
  · simp [decrypt, encrypt, Function.comp_def, xor_pad_cancel]
  · simp [decrypt, encrypt, macTag, hk]

/-- Witness for C1 at concrete inputs. -/
theorem payload_codec_round_trip_witness :
    decrypt 5 (encrypt 5 0 [1, 2, 3]) = .ok [1, 2, 3] ∧
    decrypt 7 (encrypt 5 0 [1, 2, 3]) = .error .DecryptionFailed :=
  payload_codec_round_trip 5 7 0 [1, 2, 3] (by decide)

/-- C7: nonce uniqueness: two successive calls to `encrypt` for the same
key and plaintext draw distinct nonces, produce different blobs, and both
blobs decrypt under that key back to the plaintext. -/
theorem encrypt_nonce_uniqueness (k : Key) (p : Plaintext) (s : CodecState) :
    (encryptFresh k p s).1 ≠ (encryptFresh k p (encryptFresh k p s).2).1 ∧
    decrypt k (encryptFresh k p s).1 = .ok p ∧
    decrypt k (encryptFresh k p (encryptFresh k p s).2).1 = .ok p := by
  refine ⟨?_, ?_, ?_⟩
  · intro h
    have hn := congrArg Blob.nonce h
    simp [encryptFresh, encrypt] at hn
  · simp [encryptFresh, decrypt, encrypt, Function.comp_def, xor_pad_cancel]
  · simp [encryptFresh, decrypt, encrypt, Function.comp_def, xor_pad_cancel]

/-! ## Key Carrier theorem -/

/-- C2: on every exit path of a request — success, failure, and crash —
the Key Carrier returned by the scoped run has all backing bytes
overwritten with zero (same length, all zero), so the key value does not
outlive the request. -/
theorem key_carrier_cleared_on_exit {A E : Type} (key : List Nat)
    (body : List Nat → RequestExit A E) :
    (runRequestWithKey key body).2.bytes = List.replicate key.length 0 ∧
    (∀ b ∈ (runRequestWithKey key body).2.bytes, b = 0) ∧
    ((runRequestWithKey key body).1 = body key) := by
  refine ⟨rfl, ?_, rfl⟩
  intro b hb
  simpa using List.eq_of_mem_replicate hb

/-- Witness for C7 at a concrete key, plaintext and nonce state. -/
theorem encrypt_nonce_uniqueness_witness :
    (encryptFresh 5 [1, 2, 3] ⟨0⟩).1 ≠
      (encryptFresh 5 [1, 2, 3] (encryptFresh 5 [1, 2, 3] ⟨0⟩).2).1 ∧
    decrypt 5 (encryptFresh 5 [1, 2, 3] ⟨0⟩).1 = .ok [1, 2, 3] ∧
    decrypt 5 (encryptFresh 5 [1, 2, 3]
      (encryptFresh 5 [1, 2, 3] ⟨0⟩).2).1 = .ok [1, 2, 3] :=
  encrypt_nonce_uniqueness 5 [1, 2, 3] ⟨0⟩

/-- Witness for C2 at a concrete key and request body. -/
theorem key_carrier_cleared_on_exit_witness :
    (runRequestWithKey [1, 2] fun _ =>
        (RequestExit.success 0 : RequestExit Nat Nat)).2.bytes =
      List.replicate ([1, 2] : List Nat).length 0 ∧
    (∀ b ∈ (runRequestWithKey [1, 2] fun _ =>
        (RequestExit.success 0 : RequestExit Nat Nat)).2.bytes, b = 0) ∧
    ((runRequestWithKey [1, 2] fun _ =>
        (RequestExit.success 0 : RequestExit Nat Nat)).1 =
      (RequestExit.success 0 : RequestExit Nat Nat)) :=
  key_carrier_cleared_on_exit [1, 2] _

/-! ## Pending Action Queue theorems -/

theorem claimStep_not_claimable (t : String) (a : PendingAction) :
    claimable t (if claimable t a then setInProgress a else a) = false := by
  by_cases h : claimable t a
  · rw [if_pos h]
    simp [claimable, setInProgress]
  · rw [if_neg h]
    simpa using h

theorem claimStep_id (t : String) (a : PendingAction) :
    (if claimable t a then setInProgress a else a).id = a.id := by
  split <;> rfl

theorem setInProgress_id (a : PendingAction) : (setInProgress a).id = a.id :=
  rfl

theorem markFailedStep_id (maxA i : Nat) (a : PendingAction) :
    (markFailedStep maxA i a).id = a.id := by
  unfold markFailedStep
  split
  · split <;> rfl
  · rfl

theorem claimed_filter_nil (t : String) (l : List PendingAction) :
    ((l.map fun a => if claimable t a then setInProgress a else a).filter
      (claimable t)) = [] := by
  induction l with
  | nil => rfl
  | cons a l ih =>
    simp only [List.map_cons, List.filter_cons, claimStep_not_claimable,
      Bool.false_eq_true, if_false]
    exact ih

/-- C4: at-most-one-claimer per tenant: a second `claimAll` for the same
tenant, after a first one, returns the empty sequence, hence no action is
returned to both callers; and `claimAll` returns exactly the tenant's
pending actions, transitioned to in-progress, as a finite sequence in
enqueue order. -/
theorem claimAll_at_most_one_claimer (t : String) (q : Queue) :
    (claimAll t (claimAll t q).2).1 = [] ∧
    (claimAll t q).1 = (pendingFor t q).map setInProgress ∧
    (∀ a ∈ (claimAll t q).1, a.status = ActionStatus.inProgress) ∧
    (∀ a ∈ (claimAll t q).1, a ∉ (claimAll t (claimAll t q).2).1) := by
  have hnil : (claimAll t (claimAll t q).2).1 = [] := by
    simp only [claimAll]
    rw [claimed_filter_nil]
    rfl
  refine ⟨hnil, rfl, ?_, ?_⟩
  · intro a ha
    rcases List.mem_map.1 ha with ⟨b, _, rfl⟩
    rfl
  · intro a _
    rw [hnil]
    exact List.not_mem_nil a

/-- Witness for C4 at a concrete queue with one pending action. -/
theorem claimAll_at_most_one_claimer_witness :
    (let q : Queue :=
      ⟨[⟨0, "tenant-a", ActionKind.mergeExecution, [], 0,
        ActionStatus.pending, 0⟩], 1, 3⟩
     (claimAll "tenant-a" (claimAll "tenant-a" q).2).1 = [] ∧
     (claimAll "tenant-a" q).1 =
       (pendingFor "tenant-a" q).map setInProgress ∧
     (∀ a ∈ (claimAll "tenant-a" q).1,
        a.status = ActionStatus.inProgress) ∧
     (∀ a ∈ (claimAll "tenant-a" q).1,
        a ∉ (claimAll "tenant-a" (claimAll "tenant-a" q).2).1)) :=
  claimAll_at_most_one_claimer "tenant-a" _

/-- An index `i` is failed-locked in `q` when every action carrying id `i`
is terminally failed and `i` can never be reissued by `enqueue`. -/
def failedLocked (i : Nat) (q : Queue) : Prop :=
  (∀ a ∈ q.actions, a.id = i → a.status = ActionStatus.failed) ∧
  i < q.nextId

theorem failedLocked_applyOp (i : Nat) (q : Queue) (op : QueueOp)
    (h : failedLocked i q) : failedLocked i (applyOp q op) := by
  obtain ⟨hall, hlt⟩ := h
  cases op with
  | enq t k tg now =>
    refine ⟨?_, Nat.lt_succ_of_lt hlt⟩
    intro a ha hid
    simp only [applyOp, enqueue] at ha
    rcases List.mem_append.1 ha with h1 | h1
    · exact hall a h1 hid
    · simp only [List.mem_singleton] at h1
      subst h1
      simp only at hid
      omega
  | claim t =>
    refine ⟨?_, hlt⟩
    intro a ha hid
    simp only [applyOp, claimAll] at ha
    rcases List.mem_map.1 ha with ⟨b, hb, rfl⟩
    have hidb : b.id = i := by rw [← hid, claimStep_id]
    have hst := hall b hb hidb
    have hnc : claimable t b = false := by simp [claimable, hst]
    simp [hnc, hst]
  | mdone i' =>
    refine ⟨?_, hlt⟩
    intro a ha hid
    simp only [applyOp, markDone] at ha
    rcases List.mem_map.1 ha with ⟨b, hb, rfl⟩
    by_cases hc : b.id = i' ∧ b.status = ActionStatus.inProgress
    · have hst := hall b hb (by rw [← hid]; simp [hc])
      rw [hc.2] at hst
      exact absurd hst (by simp)
    · rw [if_neg hc] at hid ⊢
      exact hall b hb hid
  | mfail i' =>
    refine ⟨?_, hlt⟩
    intro a ha hid
    simp only [applyOp, markFailed] at ha
    rcases List.mem_map.1 ha with ⟨b, hb, rfl⟩
    have hidb : b.id = i := by rw [← hid, markFailedStep_id]
    have hst := hall b hb hidb
    unfold markFailedStep
    rw [if_neg]
    · exact hst
    · rintro ⟨-, hip⟩
      rw [hip] at hst
      exact absurd hst (by simp)

theorem failedLocked_applyOps (i : Nat) (q : Queue) (ops : List QueueOp)
    (h : failedLocked i q) : failedLocked i (applyOps q ops) := by
  induction ops generalizing q with
  | nil => exact h
  | cons op ops ih => exact ih _ (failedLocked_applyOp i q op h)

theorem claimAll_avoids_failedLocked (t : String) (q : Queue) (i : Nat)
    (h : failedLocked i q) : ∀ c ∈ (claimAll t q).1, c.id ≠ i := by
  intro c hc hci
  simp only [claimAll] at hc
  rcases List.mem_map.1 hc with ⟨b, hb, rfl⟩
  rcases List.mem_filter.1 hb with ⟨hbm, hcl⟩
  have hbid : b.id = i := by rw [← hci, setInProgress_id]
  have hst := h.1 b hbm hbid
  rw [claimable, hst] at hcl
  simp at hcl

/-- C5: bounded retry: `markFailed` increments the action's attempt count
and returns it to pending while the incremented count is within the
configured bound; once the bound is exceeded the action transitions to
the terminal failed state and is excluded from every subsequent
`claimAll` result, under any further sequence of queue operations. -/
theorem markFailed_bounded_retry (q : Queue) (i : Nat) (a : PendingAction)
    (ha : a ∈ q.actions) (hid : a.id = i)
    (hst : a.status = ActionStatus.inProgress)
    (huniq : ∀ b ∈ q.actions, b.id = i → b = a)
    (hfresh : i < q.nextId) :
    (a.attempts + 1 ≤ q.maxAttempts →
      retryPending a ∈ (markFailed i q).actions) ∧
    (a.attempts + 1 > q.maxAttempts →
      retireFailed a ∈ (markFailed i q).actions ∧
      ∀ ops t, ∀ c ∈ (claimAll t (applyOps (markFailed i q) ops)).1,
        c.id ≠ i) := by
  constructor
  · intro hle
    have hstep : markFailedStep q.maxAttempts i a = retryPending a := by
      unfold markFailedStep
      rw [if_pos ⟨hid, hst⟩, if_neg (by omega)]
    rw [markFailed, ← hstep]
    exact List.mem_map_of_mem _ ha
  · intro hgt
    have hstep : markFailedStep q.maxAttempts i a = retireFailed a := by
      unfold markFailedStep
      rw [if_pos ⟨hid, hst⟩, if_pos (by omega)]
    have hlocked : failedLocked i (markFailed i q) := by
      refine ⟨?_, hfresh⟩
      intro b' hb' hbid
      simp only [markFailed] at hb'
      rcases List.mem_map.1 hb' with ⟨b, hb, rfl⟩
      have hb0 : b.id = i := by rw [← hbid, markFailedStep_id]
      rw [huniq b hb hb0, hstep]
      rfl
    refine ⟨?_, ?_⟩
    · rw [markFailed, ← hstep]
      exact List.mem_map_of_mem _ ha
    · intro ops t c hc
      exact claimAll_avoids_failedLocked t _ i
        (failedLocked_applyOps i _ ops hlocked) c hc

/-- Witness for C5 at a concrete queue: one in-progress action, bound 0,
so one more failure exceeds the bound. -/
theorem markFailed_bounded_retry_witness :
    (let a : PendingAction :=
      ⟨0, "tenant-a", ActionKind.mergeExecution, [], 0,
        ActionStatus.inProgress, 0⟩
     let q : Queue := ⟨[a], 1, 0⟩
     (a.attempts + 1 ≤ q.maxAttempts →
       retryPending a ∈ (markFailed 0 q).actions) ∧
     (a.attempts + 1 > q.maxAttempts →
       retireFailed a ∈ (markFailed 0 q).actions ∧
       ∀ ops t, ∀ c ∈ (claimAll t (applyOps (markFailed 0 q) ops)).1,
         c.id ≠ 0)) :=
  markFailed_bounded_retry _ 0 _ (by decide) (by decide) (by decide)
    (by decide) (by decide)

theorem drainActions_filter (maxA : Nat) (exec : PendingAction → Bool)
    (t : String) :
    ∀ (n : Nat) (l : List PendingAction),
      (drainActions maxA exec t n l).filter (claimable t) =
        ((((l.filter (claimable t)).take n).filter
            fun a => !(exec a) && decide (a.attempts + 1 ≤ maxA)).map
          retryPending) ++ ((l.filter (claimable t)).drop n) := by
  intro n l
  induction l generalizing n with
  | nil => cases n <;> simp [drainActions]
  | cons a l ih =>
    cases n with
    | zero => simp [drainActions]
    | succ n =>
      by_cases h : claimable t a
      · have hten : a.tenant = t := by
          have h2 := h
          simp [claimable] at h2
          exact h2.1
        by_cases hex : exec a = true
        · have hset : claimable t (settleDrained maxA exec a) = false := by
            simp [settleDrained, hex, claimable]
          have hpred :
              (!(exec a) && decide (a.attempts + 1 ≤ maxA)) = false := by
            simp [hex]
          simp [drainActions, h, List.filter_cons, hset, hpred, ih n]
        · by_cases hbound : a.attempts + 1 > maxA
          · have hset :
                claimable t (settleDrained maxA exec a) = false := by
              simp [settleDrained, hex, hbound, retireFailed, claimable]
            have hpred :
                (!(exec a) && decide (a.attempts + 1 ≤ maxA)) = false := by
              simp [hex]
              omega
            simp [drainActions, h, List.filter_cons, hset, hpred, ih n]
          · have hset : settleDrained maxA exec a = retryPending a := by
              simp [settleDrained, hex, hbound]
            have hcl : claimable t (retryPending a) = true := by
              simp [claimable, retryPending, hten]
            have hpred :
                (!(exec a) && decide (a.attempts + 1 ≤ maxA)) = true := by
              simp [hex]
              omega
            simp [drainActions, h, List.filter_cons, hset, hcl, hpred, ih n]
      · simp [drainActions, h, List.filter_cons, ih (n + 1)]

/-- C6: bounded opportunistic drain: the drain step processes at most
`budget` actions, namely the tenant's oldest `budget` pending actions in
enqueue order; each processed action is settled by `markDone` or the
`markFailed` retry policy, and the tenant's pending actions after the
drain are exactly the processed actions that failed within the attempt
bound (returned to pending) followed by the untouched actions beyond the
bounded subset — in particular every action beyond the bounded subset
remains queued for the tenant's next request. -/
theorem drain_bounded_subset (budget : Nat) (t : String)
    (exec : PendingAction → Bool) (q : Queue) :
    (drainBounded budget t exec q).1.length ≤ budget ∧
    (drainBounded budget t exec q).1 = (pendingFor t q).take budget ∧
    pendingFor t (drainBounded budget t exec q).2 =
      ((((pendingFor t q).take budget).filter
          fun a => !(exec a) && decide (a.attempts + 1 ≤ q.maxAttempts)).map
        retryPending) ++ ((pendingFor t q).drop budget) ∧
    (∀ a ∈ (pendingFor t q).drop budget,
      a ∈ pendingFor t (drainBounded budget t exec q).2) := by
  have hEq : pendingFor t (drainBounded budget t exec q).2 =
      ((((pendingFor t q).take budget).filter
          fun a => !(exec a) && decide (a.attempts + 1 ≤ q.maxAttempts)).map
        retryPending) ++ ((pendingFor t q).drop budget) := by
    simpa [drainBounded, pendingFor] using
      drainActions_filter q.maxAttempts exec t budget q.actions
  refine ⟨?_, rfl, hEq, ?_⟩
  · simp only [drainBounded, List.length_take]
    exact inf_le_left
  · intro a ha
    rw [hEq]
    exact List.mem_append_right _ ha

/-- Witness for C6 at a concrete queue with two pending actions, budget
one, and a failing executor, exercising the return-to-pending path. -/
theorem drain_bounded_subset_witness :
    (let q : Queue :=
      ⟨[⟨0, "tenant-a", ActionKind.mergeExecution, [], 0,
          ActionStatus.pending, 0⟩,
        ⟨1, "tenant-a", ActionKind.reExtraction, [], 1,
          ActionStatus.pending, 0⟩], 2, 3⟩
     (drainBounded 1 "tenant-a" (fun _ => false) q).1.length ≤ 1 ∧
     (drainBounded 1 "tenant-a" (fun _ => false) q).1 =
       (pendingFor "tenant-a" q).take 1 ∧
     pendingFor "tenant-a" (drainBounded 1 "tenant-a" (fun _ => false) q).2 =
       ((((pendingFor "tenant-a" q).take 1).filter
           fun a => !false && decide (a.attempts + 1 ≤ q.maxAttempts)).map
         retryPending) ++ ((pendingFor "tenant-a" q).drop 1) ∧
     (∀ a ∈ (pendingFor "tenant-a" q).drop 1,
        a ∈ pendingFor "tenant-a"
          (drainBounded 1 "tenant-a" (fun _ => false) q).2)) :=
  drain_bounded_subset 1 "tenant-a" (fun _ => false) _

/-! ## enforceSpaceIds theorems -/

theorem arrayCheckOf_ok_iff (ids : JValue) (allowed : List String) :
    arrayCheckOf ids allowed = Except.ok () ↔
      ∀ l, ids = JValue.arr l → ∀ v ∈ l, isAllowedElem allowed v = true := by
  cases ids with
  | arr l =>
    constructor
    · intro h l' hl'
      cases hl'
      intro v hv
      by_contra hva
      rw [Bool.not_eq_true] at hva
      have hmem : v ∈ l.filter fun v => !(isAllowedElem allowed v) :=
        List.mem_filter.2 ⟨hv, by simp [hva]⟩
      have hne : (l.filter fun v => !(isAllowedElem allowed v)) ≠ [] :=
        List.ne_nil_of_mem hmem
      simp only [arrayCheckOf] at h
      rw [if_neg (by simpa [List.isEmpty_iff] using hne)] at h
      exact Except.noConfusion h
    · intro h
      have hnil : (l.filter fun v => !(isAllowedElem allowed v)) = [] :=
        List.filter_eq_nil_iff.2 (by intro v hv; simp [h l rfl v hv])
      simp [arrayCheckOf, hnil]
  | null => simp [arrayCheckOf]
  | str s => simp [arrayCheckOf]
  | num n => simp [arrayCheckOf]
  | boolean b => simp [arrayCheckOf]

theorem stringCheckOf_ok_iff (sid : JValue) (allowed : List String) :
    stringCheckOf sid allowed = Except.ok () ↔
      ∀ s, sid = JValue.str s → allowed.contains s = true := by
  cases sid with
  | str s =>
    by_cases hc : allowed.contains s
    · simp [stringCheckOf, hc]
    · simp [stringCheckOf, hc]
  | null => simp [stringCheckOf]
  | num n => simp [stringCheckOf]
  | boolean b => simp [stringCheckOf]
  | arr l => simp [stringCheckOf]

theorem enforceSpaceIds_ok_iff (body : ProxyBody) (allowed : List String) :
    enforceSpaceIds body allowed = Except.ok () ↔
      ((∀ l, body.space_ids = JValue.arr l →
          ∀ v ∈ l, isAllowedElem allowed v = true) ∧
       (∀ s, body.space_id = JValue.str s →
          allowed.contains s = true)) := by
  rw [← arrayCheckOf_ok_iff, ← stringCheckOf_ok_iff]
  cases ha : arrayCheckOf body.space_ids allowed with
  | error e => simp [enforceSpaceIds, ha]
  | ok u =>
    cases u
    simp [enforceSpaceIds, ha]

theorem except_error_exists (r : Except String Unit) :
    (∃ e, r = Except.error e) ↔ ¬(r = Except.ok ()) := by
  cases r with
  | error e => simp
  | ok u => cases u; simp

/-- C9: `enforceSpaceIds` throws exactly when `space_ids` is an array
containing some element that is not an allowed id, or `space_id` is a
string that is not an allowed id; a body whose `space_ids` is not an
array and whose `space_id` is not a string always passes. -/
theorem enforceSpaceIds_shape_coverage (body : ProxyBody)
    (allowed : List String) :
    ((∃ e, enforceSpaceIds body allowed = Except.error e) ↔
      ((∃ l, body.space_ids = JValue.arr l ∧
          ∃ v ∈ l, isAllowedElem allowed v = false) ∨
       (∃ s, body.space_id = JValue.str s ∧ s ∉ allowed))) ∧
    ((∀ l, body.space_ids ≠ JValue.arr l) →
     (∀ s, body.space_id ≠ JValue.str s) →
      enforceSpaceIds body allowed = Except.ok ()) := by
  constructor
  · rw [except_error_exists, enforceSpaceIds_ok_iff, not_and_or]
    constructor
    · rintro (h | h)
      · left
        push_neg at h
        obtain ⟨l, hl, v, hv, hnv⟩ := h
        exact ⟨l, hl, v, hv, Bool.not_eq_true _ ▸ hnv⟩
      · right
        push_neg at h
        obtain ⟨s, hs, hc⟩ := h
        refine ⟨s, hs, fun hmem => hc ?_⟩
        simp [List.contains, List.elem_iff]
        exact hmem
    · rintro (⟨l, hl, v, hv, hvf⟩ | ⟨s, hs, hsnm⟩)
      · left
        intro hall
        exact absurd (hall l hl v hv) (by simp [hvf])
      · right
        intro hall
        exact hsnm (by simpa [List.contains, List.elem_iff] using hall s hs)
  · intro h1 h2
    rw [enforceSpaceIds_ok_iff]
    refine ⟨fun l hl => ?_, fun s hs => ?_⟩
    · exact absurd hl (h1 l)
    · exact absurd hs (h2 s)

/-- Witness for C9 at a concrete body carrying an allowed space id. -/
theorem enforceSpaceIds_shape_coverage_witness :
    (let body : ProxyBody := ⟨JValue.arr [JValue.str "s1"], JValue.null⟩
     ((∃ e, enforceSpaceIds body ["s1"] = Except.error e) ↔
       ((∃ l, body.space_ids = JValue.arr l ∧
           ∃ v ∈ l, isAllowedElem ["s1"] v = false) ∨
        (∃ s, body.space_id = JValue.str s ∧ s ∉ ["s1"]))) ∧
     ((∀ l, body.space_ids ≠ JValue.arr l) →
      (∀ s, body.space_id ≠ JValue.str s) →
       enforceSpaceIds body ["s1"] = Except.ok ())) :=
  enforceSpaceIds_shape_coverage _ ["s1"]

/-! ## Service worker theorem -/

/-- C10: for every fetch event whose URL pathname starts with `/api` or
whose hostname contains `googleapis`, the service worker does not
intercept the event (no cached response is served) and leaves the cache
unchanged (no response is stored). -/
theorem sw_fetch_api_not_cached (ev : FetchEvent) (cache : SWCache)
    (net : NetFetch)
    (h : strStarts "/api" ev.urlPathname = true ∨
      strHas "googleapis" ev.urlHostname = true) :
    swFetch ev cache net = (SWResponse.passthrough, cache) := by
  rcases h with h | h <;> simp [swFetch, h]

/-- Witness for C10 at a concrete API fetch event. -/
theorem sw_fetch_api_not_cached_witness :
    (strStarts "/api" "/api/chat" = true ∨
      strHas "googleapis" "example.com" = true) ∧
    swFetch ⟨"/api/chat", "example.com", "document", "u"⟩ [] NetFetch.failed
      = (SWResponse.passthrough, []) :=
  ⟨Or.inl (by decide),
   sw_fetch_api_not_cached _ _ _ (Or.inl (by decide))⟩

/-! ## Status-mapping lemmas -/

theorem isPrefixOf_append_left (p q r : List Char)
    (h : p.isPrefixOf q = true) : p.isPrefixOf (q ++ r) = true := by
  induction p generalizing q with
  | nil => simp [List.isPrefixOf]
  | cons a p ih =>
    cases q with
    | nil => simp [List.isPrefixOf] at h
    | cons b q =>
      simp only [List.cons_append]
      simp only [List.isPrefixOf, Bool.and_eq_true] at h ⊢
      exact ⟨h.1, ih q h.2⟩

theorem containsSub_of_isPrefixOf (n hay : List Char)
    (h : n.isPrefixOf hay = true) : containsSub n hay = true := by
  cases hay with
  | nil =>
    cases n with
    | nil => rfl
    | cons c t => simp [List.isPrefixOf] at h
  | cons c rest => simp [containsSub, h]

theorem strHas_appendRight (needle s t : String)
    (h : strStarts needle s = true) : strHas needle (s ++ t) = true := by
  unfold strHas
  rw [String.data_append]
  exact containsSub_of_isPrefixOf _ _ (isPrefixOf_append_left _ _ _ h)

theorem statusOf_access_denied_space (sid : String) :
    statusOf ("Access denied to space: " ++ sid) = 403 := by
  have h : strHas "Access denied" ("Access denied to space: " ++ sid)
      = true :=
    strHas_appendRight _ _ _ (by decide)
  unfold statusOf
  rw [if_pos (by simp [h])]

theorem statusOf_missing_auth :
    statusOf "Missing or invalid Authorization header" = 401 := by
  decide

theorem statusOf_missing_claims :
    statusOf "Missing sandbox claims — contact admin for access" = 401 := by
  decide

/-- Every error `verifyAuth` can produce maps to status 401, given that
the external identity collaborator's rejection messages do too. -/
theorem verifyAuth_error_status (req : ProxyRequest)
    (htok : ∀ e, req.tokenResult = Except.error e → statusOf e = 401) :
    ∀ m, verifyAuth req = Except.error m → statusOf m = 401 := by
  intro m hm
  unfold verifyAuth at hm
  split at hm
  · cases hm
    exact statusOf_missing_auth
  · split at hm
    · split at hm
      · rename_i _e heq
        cases hm
        exact htok _ heq
      · split at hm
        · cases hm
          exact statusOf_missing_claims
        · exact Except.noConfusion hm
    · cases hm
      exact statusOf_missing_auth

/-- Inversion of a forwarded `handleProxy` outcome: forwarding happens
only after auth verification, the path whitelist, the path space gate and
the body space check, and the forwarded headers are exactly the fixed
header set. -/
theorem handleProxy_forwarded_inv (apiKey : String) (req : ProxyRequest)
    (path : List String) (m : String) (p : List String)
    (hdrs : List (String × String)) (b : Option ProxyBody)
    (h : handleProxy apiKey req path = .forwarded m p hdrs b) :
    ∃ claims, verifyAuth req = Except.ok claims ∧
      isPathAllowed req.method path = true ∧
      (∀ sid, extractSpaceIdFromPath path = some sid →
        claims.ngSpaceIds.contains sid = true) ∧
      enforceSpaceIds (effectiveBody req) claims.ngSpaceIds
        = Except.ok () ∧
      hdrs = proxyHeaders apiKey claims ∧ m = req.method ∧ p = path := by
  unfold handleProxy at h
  cases hv : verifyAuth req with
  | error msg =>
    rw [hv] at h
    exact ProxyResult.noConfusion h
  | ok claims =>
    rw [hv] at h
    by_cases hp : isPathAllowed req.method path = true
    · simp only [hp, Bool.not_true, Bool.false_eq_true, if_false] at h
      cases hx : extractSpaceIdFromPath path with
      | some sid =>
        rw [hx] at h
        by_cases hc : claims.ngSpaceIds.contains sid = true
        · simp only [hc, Bool.not_true, Bool.false_eq_true, if_false] at h
          unfold handleProxyBody at h
          cases he : enforceSpaceIds (effectiveBody req) claims.ngSpaceIds
              with
          | error e =>
            rw [he] at h
            exact ProxyResult.noConfusion h
          | ok u =>
            cases u
            rw [he] at h
            cases h
            refine ⟨claims, rfl, hp, ?_, he, rfl, rfl, rfl⟩
            intro sid' hsid'
            cases hsid'
            exact hc
        · rw [Bool.not_eq_true] at hc
          have hnm : sid ∉ claims.ngSpaceIds := by
            intro hm
            have hct : claims.ngSpaceIds.contains sid = true := by
              simpa [List.contains, List.elem_iff] using hm
            rw [hc] at hct
            exact Bool.noConfusion hct
          simp [hc, hnm] at h
      | none =>
        rw [hx] at h
        unfold handleProxyBody at h
        cases he : enforceSpaceIds (effectiveBody req) claims.ngSpaceIds
            with
        | error e =>
          rw [he] at h
          exact ProxyResult.noConfusion h
        | ok u =>
          cases u
          rw [he] at h
          cases h
          refine ⟨claims, rfl, hp, ?_, he, rfl, rfl, rfl⟩
          intro sid' hsid'
          exact Option.noConfusion hsid'
    · rw [Bool.not_eq_true] at hp
      simp [hp] at h

/-- C8: the upstream NeuralGraph API is contacted only when
authentication verifies, the (method, path) pair matches the
`ALLOWED_PATHS` whitelist, and any space id embedded in the path is among
the caller's `ngSpaceIds` claims; when any of those gates fails the
handler answers with status 403 (401 when authentication failed) without
contacting the upstream. -/
theorem handleProxy_whitelist_gate (apiKey : String) (req : ProxyRequest)
    (path : List String)
    (htok : ∀ e, req.tokenResult = Except.error e → statusOf e = 401) :
    (∀ m p hdrs b, handleProxy apiKey req path = .forwarded m p hdrs b →
      ∃ c, verifyAuth req = Except.ok c ∧
        isPathAllowed req.method path = true ∧
        (∀ sid, extractSpaceIdFromPath path = some sid →
          c.ngSpaceIds.contains sid = true)) ∧
    ((¬ ∃ c, verifyAuth req = Except.ok c ∧
        isPathAllowed req.method path = true ∧
        (∀ sid, extractSpaceIdFromPath path = some sid →
          c.ngSpaceIds.contains sid = true)) →
      ∃ st msg, handleProxy apiKey req path = .denied st msg ∧
        (st = 403 ∨ st = 401) ∧
        ((∃ c, verifyAuth req = Except.ok c) → st = 403) ∧
        ((∀ c, verifyAuth req ≠ Except.ok c) → st = 401)) := by
  constructor
  · intro m p hdrs b h
    obtain ⟨c, hc1, hc2, hc3, -⟩ :=
      handleProxy_forwarded_inv apiKey req path m p hdrs b h
    exact ⟨c, hc1, hc2, hc3⟩
  · intro hng
    cases hv : verifyAuth req with
    | error msg =>
      have h401 := verifyAuth_error_status req htok msg hv
      refine ⟨401, msg, ?_, Or.inr rfl, ?_, fun _ => rfl⟩
      · simp [handleProxy, hv, h401]
      · rintro ⟨c, hc⟩
        exact Except.noConfusion hc
    | ok claims =>
      by_cases hp : isPathAllowed req.method path = true
      · have hsid : ∃ sid, extractSpaceIdFromPath path = some sid ∧
            ¬(claims.ngSpaceIds.contains sid = true) := by
          by_contra hno
          apply hng
          refine ⟨claims, hv, hp, ?_⟩
          intro sid hs
          by_contra hcc
          exact hno ⟨sid, hs, hcc⟩
        obtain ⟨sid, hx, hcon⟩ := hsid
        have hconf : claims.ngSpaceIds.contains sid = false := by
          rwa [Bool.not_eq_true] at hcon
        have hnm : sid ∉ claims.ngSpaceIds := by
          intro hm
          have hct : claims.ngSpaceIds.contains sid = true := by
            simpa [List.contains, List.elem_iff] using hm
          rw [hconf] at hct
          exact Bool.noConfusion hct
        refine ⟨403, "Access denied to space: " ++ sid, ?_, Or.inl rfl,
          fun _ => rfl, fun hall => absurd rfl (hall claims)⟩
        simp [handleProxy, hv, hp, hx, hconf, hnm]
      · rw [Bool.not_eq_true] at hp
        refine ⟨403, "Endpoint not allowed", ?_, Or.inl rfl,
          fun _ => rfl, fun hall => absurd rfl (hall claims)⟩
        simp [handleProxy, hv, hp]

/-- Witness for C8: a fully authorized request to `GET /v1/health` is
forwarded, and the theorem's gates hold for it. -/
theorem handleProxy_whitelist_gate_witness :
    (let req : ProxyRequest :=
      ⟨"GET", some "Bearer token",
        Except.ok ⟨some "tenant-a", some "user-1", some ["space-1"]⟩,
        some "key-bytes", none⟩
     (∀ m p hdrs b,
        handleProxy "api-key" req ["v1", "health"] = .forwarded m p hdrs b →
        ∃ c, verifyAuth req = Except.ok c ∧
          isPathAllowed req.method ["v1", "health"] = true ∧
          (∀ sid, extractSpaceIdFromPath ["v1", "health"] = some sid →
            c.ngSpaceIds.contains sid = true)) ∧
     ((¬ ∃ c, verifyAuth req = Except.ok c ∧
          isPathAllowed req.method ["v1", "health"] = true ∧
          (∀ sid, extractSpaceIdFromPath ["v1", "health"] = some sid →
            c.ngSpaceIds.contains sid = true)) →
       ∃ st msg,
         handleProxy "api-key" req ["v1", "health"] = .denied st msg ∧
         (st = 403 ∨ st = 401) ∧
         ((∃ c, verifyAuth req = Except.ok c) → st = 403) ∧
         ((∀ c, verifyAuth req ≠ Except.ok c) → st = 401))) :=
  handleProxy_whitelist_gate "api-key" _ ["v1", "health"]
    (fun e h => Except.noConfusion h)

/-- C3: the tenant key travels in the dedicated `X-Encryption-Key`
transport field; an operation that needs the key fails with `KeyMissing`
exactly when the request lacks the field; the proxy handler forwards no
header named after the key field, and its entire outcome — including
every forwarded header — is independent of the key field's value. -/
theorem inbound_key_field_handling (apiKey : String) (req : ProxyRequest)
    (path : List String) :
    (requireKey req.encryptionKey = Except.error CoreError.KeyMissing ↔
      req.encryptionKey = none) ∧
    (∀ k, requireKey (some k) = Except.ok k) ∧
    (∀ m p hdrs b, handleProxy apiKey req path = .forwarded m p hdrs b →
      keyHeaderName ∉ hdrs.map Prod.fst) ∧
    (∀ kv, handleProxy apiKey { req with encryptionKey := kv } path =
      handleProxy apiKey req path) := by
  refine ⟨?_, fun k => rfl, ?_, ?_⟩
  · cases hk : req.encryptionKey with
    | none => simp [requireKey]
    | some v => simp [requireKey]
  · intro m p hdrs b h
    obtain ⟨c, -, -, -, -, hh, -, -⟩ :=
      handleProxy_forwarded_inv apiKey req path m p hdrs b h
    subst hh
    simp [proxyHeaders, keyHeaderName]
  · intro kv
    cases req
    rfl

/-- Witness for C3: a concrete request whose forwarded headers exclude
the key field. -/
theorem inbound_key_field_handling_witness :
    (let req : ProxyRequest :=
      ⟨"GET", some "Bearer token",
        Except.ok ⟨some "tenant-a", some "user-1", some ["space-1"]⟩,
        none, none⟩
     (requireKey req.encryptionKey = Except.error CoreError.KeyMissing ↔
       req.encryptionKey = none) ∧
     (∀ k, requireKey (some k) = Except.ok k) ∧
     (∀ m p hdrs b,
        handleProxy "api-key" req ["v1", "health"] = .forwarded m p hdrs b →
        keyHeaderName ∉ hdrs.map Prod.fst) ∧
     (∀ kv, handleProxy "api-key" { req with encryptionKey := kv }
        ["v1", "health"] = handleProxy "api-key" req ["v1", "health"])) :=
  inbound_key_field_handling "api-key" _ ["v1", "health"]

end NeuralGraph
